import Mathlib

/-!
Shallow embedding of the FGO-Sprite repository core: the normalized
coordinate model, the grid layout generator, the composite renderer
geometry, and the brute-force template aligner, together with theorems
settling the frozen claims about them.

Numeric convention: JavaScript numbers are modelled by rationals, so all
arithmetic is exact; `Math.floor` is `Int.floor`, `Math.round` is
Mathlib's `round` (both round half toward positive infinity), and
`Math.abs` of integer differences is `Int.natAbs`.  Pixel buffers
(`Uint8ClampedArray` from `getImageData`) are flat byte lists indexed as
in the source; reading past the end yields the default 0 (a real call
always supplies a full `w*h*4` buffer, so the defaulting is never hit on
the index ranges the loops touch).
-/

namespace FGOSprite

/-- Normalized rectangle, all four fields in the [0,1000] space
(src/types: interface Rect). -/
structure Rect where
  x : ℚ
  y : ℚ
  w : ℚ
  h : ℚ
deriving DecidableEq

/-- Global calibration correction (src/types: interface Calibration). -/
structure Calibration where
  offsetX : ℚ
  offsetY : ℚ
  scale : ℚ
deriving DecidableEq

/-- Per-patch fine offset (src/App.tsx: interface PatchOffset). -/
structure PatchOffset where
  dx : ℚ
  dy : ℚ
deriving DecidableEq

/-- src/App.tsx `toRawPx`: `(val / 1000) * imgElement.naturalWidth`,
modelled in the non-null-image case with the width as a parameter. -/
def toRawPx (naturalWidth v : ℚ) : ℚ :=
  v / 1000 * naturalWidth

/-- src/App.tsx `handleBatchAutoAlign` result conversion:
`(result.dx / imgElement.naturalWidth) * 1000`. -/
def toNormalizedPx (naturalWidth p : ℚ) : ℚ :=
  p / naturalWidth * 1000

/-- Grid configuration (src/App.tsx `gridConfig` state shape). -/
structure GridConfig where
  originX : ℚ
  originY : ℚ
  spacingX : ℚ
  spacingY : ℚ
  patchW : ℚ
  patchH : ℚ
  cols : ℕ
  rows : ℕ

/-- src/App.tsx `currentPatches`: nested row/column loops pushing one
rect per cell, row-major. -/
def currentPatches (g : GridConfig) : List Rect :=
  (List.range g.rows).flatMap fun (r : ℕ) =>
    (List.range g.cols).map fun (c : ℕ) =>
      let cx := g.originX + (c : ℚ) * g.spacingX
      let cy := g.originY + (r : ℚ) * g.spacingY
      ⟨cx - g.patchW / 2, cy - g.patchH / 2, g.patchW, g.patchH⟩

/-- src/App.tsx `patchOffsets` reconciliation effect: when the stored
array length differs from the current patch count, the whole array is
recreated as `new Array(n).fill({dx: 0, dy: 0})`. -/
def reconcilePatchOffsets (current : List PatchOffset) (patchCount : ℕ) : List PatchOffset :=
  if current.length ≠ patchCount then List.replicate patchCount ⟨0, 0⟩ else current

/-- Raw-pixel source/destination draw geometry (src/App.tsx
`getCompositeCoords` return shape). -/
structure CompositeCoords where
  sx : ℚ
  sy : ℚ
  sw : ℚ
  sh : ℚ
  tx : ℚ
  ty : ℚ
  tw : ℚ
  th : ℚ
deriving DecidableEq

/-- src/App.tsx `getCompositeCoords` (non-null case): source rect from
the patch via `toRawPx`, destination origin from the target rect origin
plus per-patch and calibration offsets, destination size from the
source size times the calibration scale. -/
def getCompositeCoords (naturalWidth : ℚ) (mainFace : Rect) (cal : Calibration)
    (off : PatchOffset) (p : Rect) : CompositeCoords :=
  let sw := toRawPx naturalWidth p.w
  let sh := toRawPx naturalWidth p.h
  let sx := toRawPx naturalWidth p.x
  let sy := toRawPx naturalWidth p.y
  let tx := toRawPx naturalWidth mainFace.x + toRawPx naturalWidth off.dx +
    toRawPx naturalWidth cal.offsetX
  let ty := toRawPx naturalWidth mainFace.y + toRawPx naturalWidth off.dy +
    toRawPx naturalWidth cal.offsetY
  let tw := sw * cal.scale
  let th := sh * cal.scale
  ⟨sx, sy, sw, sh, tx, ty, tw, th⟩

/-- Export-canvas geometry computed by one `performExport` call in
src/App.tsx: canvas size, export origin, and the rectangle passed to
`ctx.clearRect` (which is also the draw rectangle there). -/
structure ExportGeom where
  canvasW : ℤ
  canvasH : ℤ
  bX : ℤ
  bY : ℤ
  clearX : ℤ
  clearY : ℤ
  clearW : ℤ
  clearH : ℤ
deriving DecidableEq

/-- src/App.tsx `performExport` geometry: floored mainBody bounds for
the canvas, then the composite coords; the cleared rectangle is the
rounded destination rect translated into canvas coordinates. -/
def performExport (naturalWidth : ℚ) (mainBody mainFace : Rect) (cal : Calibration)
    (off : PatchOffset) (p : Rect) : ExportGeom :=
  let bw : ℤ := max 1 ⌊toRawPx naturalWidth mainBody.w⌋
  let bh : ℤ := max 1 ⌊toRawPx naturalWidth mainBody.h⌋
  let bx : ℤ := ⌊toRawPx naturalWidth mainBody.x⌋
  let byRaw : ℤ := ⌊toRawPx naturalWidth mainBody.y⌋
  let coords := getCompositeCoords naturalWidth mainFace cal off p
  ⟨bw, bh, bx, byRaw,
   round (coords.tx - (bx : ℚ)), round (coords.ty - (byRaw : ℚ)),
   round coords.tw, round coords.th⟩

/-- Uniform master size (src/unnamed/part_000 `masterSize` state). -/
structure MasterSize where
  w : ℚ
  h : ℚ
deriving DecidableEq

/-- src/unnamed/part_000 `getEffectivePatch`: substitutes the master
size around the stored patch center when the toggle is on, identity
otherwise.  The `analysis.patches[idx]` lookup is supplied as `p`. -/
def getEffectivePatch (useMasterSize : Bool) (masterSize : MasterSize) (p : Rect) : Rect :=
  if useMasterSize then
    ⟨p.x + p.w / 2 - masterSize.w / 2, p.y + p.h / 2 - masterSize.h / 2,
     masterSize.w, masterSize.h⟩
  else p

/-- Geometry computed by one `renderComposite` call: source rect, dest
rect, the rect passed to `ctx.clearRect` when masking fires (none when
it does not), and the global alpha used for the draw. -/
structure CompositeGeom where
  pX : ℚ
  pY : ℚ
  pW : ℚ
  pH : ℚ
  tX : ℚ
  tY : ℚ
  tW : ℚ
  tH : ℚ
  maskRect : Option Rect
  alpha : ℚ
deriving DecidableEq

/-- src/unnamed/part_000 `renderComposite` (non-null case): converts the
effective patch to raw pixels (x,w by the natural width, y,h by the
natural height), centers the scaled destination on the target face
center, adds the calibration offsets as raw pixels, and, when
`enableMask && !isPreview`, clears the raw-pixel rect of the original
`targetFace` before the draw. -/
def renderComposite (nw nh : ℚ) (targetFace : Rect) (cal : Calibration)
    (useMasterSize : Bool) (masterSize : MasterSize) (overlayOpacity : ℚ)
    (enableMask : Bool) (p : Rect) (isPreview : Bool) : CompositeGeom :=
  let patch := getEffectivePatch useMasterSize masterSize p
  let pW := patch.w / 1000 * nw
  let pH := patch.h / 1000 * nh
  let pX := patch.x / 1000 * nw
  let pY := patch.y / 1000 * nh
  let centerX := (targetFace.x + targetFace.w / 2) / 1000 * nw
  let centerY := (targetFace.y + targetFace.h / 2) / 1000 * nh
  let tW := pW * cal.scale
  let tH := pH * cal.scale
  let tX := (centerX - tW / 2) + cal.offsetX
  let tY := (centerY - tH / 2) + cal.offsetY
  let mask : Option Rect :=
    if enableMask && !isPreview then
      some ⟨targetFace.x / 1000 * nw, targetFace.y / 1000 * nh,
            targetFace.w / 1000 * nw, targetFace.h / 1000 * nh⟩
    else none
  ⟨pX, pY, pW, pH, tX, tY, tW, tH, mask, if isPreview then 1 else overlayOpacity⟩

/-- Idealized model of `ctx.clearRect` acting on the alpha channel: every
point of the closed rectangle becomes fully transparent (alpha 0). -/
def clearAlpha (alpha : ℚ → ℚ → ℚ) (r : Rect) : ℚ → ℚ → ℚ :=
  fun px py =>
    if r.x ≤ px ∧ px ≤ r.x + r.w ∧ r.y ≤ py ∧ py ≤ r.y + r.h then 0 else alpha px py

/-! ## Template aligner (src/services/cvService.ts `autoAlignTemplate`)

The canvas collaborator (template resampling and search-region
extraction via `drawImage`/`getImageData`) is external; the scoring
loops operate on the two extracted byte buffers, which the embedding
takes as inputs. -/

/-- Search-region rect argument `targetRectPx` of `autoAlignTemplate`. -/
structure TargetRectPx where
  tx : ℚ
  ty : ℚ
  tw : ℚ
  th : ℚ
deriving DecidableEq

/-- Anchor-in-patch rect argument `anchorInPatchPx` of `autoAlignTemplate`. -/
structure AnchorInPatchPx where
  ax : ℚ
  ay : ℚ
  aw : ℚ
  ah : ℚ
deriving DecidableEq

/-- Result of `autoAlignTemplate`; `warned` records whether the
infeasible branch fired (the `console.warn` followed by `return {dx: 0,
dy: 0}`). -/
structure AlignResult where
  dx : ℚ
  dy : ℚ
  warned : Bool
deriving DecidableEq

/-- The stride-2 row/column indices `0, 2, 4, ...` below `n`, as walked
by `for (p = 0; p < n; p += 2)`. -/
def sampleStride2 (n : ℕ) : List ℕ :=
  (List.range n).filter fun i => decide (i % 2 = 0)

/-- All sampled template positions `(px, py)` of the two inner loops, in
loop order (`py` major, both stride 2). -/
def samplePts (tplW tplH : ℕ) : List (ℕ × ℕ) :=
  (sampleStride2 tplH).flatMap fun py =>
    (sampleStride2 tplW).map fun px => (px, py)

/-- Template alpha at a sampled position: `tplData[(py*tplW+px)*4 + 3]`. -/
def alphaAt (tpl : List ℕ) (tplW : ℕ) (p : ℕ × ℕ) : ℕ :=
  tpl.getD ((p.2 * tplW + p.1) * 4 + 3) 0

/-- Per-pixel contribution `d`: the sum of the absolute R, G, B channel
differences between the template pixel and the overlapped search pixel. -/
def pixDiff (tpl search : List ℕ) (tplW searchW dx dy : ℕ) (p : ℕ × ℕ) : ℕ :=
  let tIdx := (p.2 * tplW + p.1) * 4
  let sIdx := ((p.2 + dy) * searchW + (p.1 + dx)) * 4
  ((tpl.getD tIdx 0 : ℤ) - (search.getD sIdx 0 : ℤ)).natAbs +
    ((tpl.getD (tIdx + 1) 0 : ℤ) - (search.getD (sIdx + 1) 0 : ℤ)).natAbs +
    ((tpl.getD (tIdx + 2) 0 : ℤ) - (search.getD (sIdx + 2) 0 : ℤ)).natAbs

/-- The inner sampling loops for one window offset: accumulate `diff`
and `weight` over sampled template pixels whose alpha exceeds 40. -/
def diffWeightAt (tpl search : List ℕ) (tplW tplH searchW dx dy : ℕ) : ℕ × ℕ :=
  (samplePts tplW tplH).foldl
    (fun acc p =>
      if 40 < alphaAt tpl tplW p then
        (acc.1 + pixDiff tpl search tplW searchW dx dy p, acc.2 + 1)
      else acc)
    (0, 0)

/-- A window offset is scored when at least one sampled template pixel
passes the alpha threshold there. -/
def scored (tpl search : List ℕ) (tplW tplH searchW : ℕ) (o : ℕ × ℕ) : Prop :=
  0 < (diffWeightAt tpl search tplW tplH searchW o.1 o.2).2

instance (tpl search : List ℕ) (tplW tplH searchW : ℕ) (o : ℕ × ℕ) :
    Decidable (scored tpl search tplW tplH searchW o) := by
  unfold scored
  infer_instance

/-- The score `diff / weight` of a window offset (0 when unscored,
where the source never reads it). -/
def scoreAt (tpl search : List ℕ) (tplW tplH searchW : ℕ) (o : ℕ × ℕ) : ℚ :=
  ((diffWeightAt tpl search tplW tplH searchW o.1 o.2).1 : ℚ) /
    ((diffWeightAt tpl search tplW tplH searchW o.1 o.2).2 : ℚ)

/-- Running state of the SAD search: `minDiff` (none models the initial
`Infinity`) and the best offset so far (initially `(0, 0)`). -/
structure SearchState where
  minDiff : Option ℚ
  bestX : ℕ
  bestY : ℕ
deriving DecidableEq

/-- One iteration of the window-offset loops: score the offset, and take
it as new best when `weight > 0` and `score < minDiff`. -/
def stepOffset (tpl search : List ℕ) (tplW tplH searchW : ℕ)
    (st : SearchState) (dx dy : ℕ) : SearchState :=
  let dw := diffWeightAt tpl search tplW tplH searchW dx dy
  if 0 < dw.2 then
    let score : ℚ := (dw.1 : ℚ) / (dw.2 : ℚ)
    match st.minDiff with
    | none => ⟨some score, dx, dy⟩
    | some m => if score < m then ⟨some score, dx, dy⟩ else st
  else st

/-- The nested `dy`/`dx` loops of step 3, from the initial state
`minDiff = Infinity, bestX = 0, bestY = 0`. -/
def runSearch (tpl search : List ℕ) (tplW tplH searchW limX limY : ℕ) : SearchState :=
  (List.range (limY + 1)).foldl
    (fun st dy =>
      (List.range (limX + 1)).foldl
        (fun st dx => stepOffset tpl search tplW tplH searchW st dx dy) st)
    ⟨none, 0, 0⟩

/-- src/services/cvService.ts `autoAlignTemplate`: template dimensions
from the scaled anchor rect, search dimensions from the floored target
rect, the infeasibility guard, the SAD search, and the final conversion
of the winning window offset to a patch-origin offset. -/
def autoAlignTemplate (tplData searchData : List ℕ)
    (targetRectPx : TargetRectPx) (anchorInPatchPx : AnchorInPatchPx)
    (targetScale : ℚ) : AlignResult :=
  let tplW : ℤ := max 1 (round (anchorInPatchPx.aw * targetScale))
  let tplH : ℤ := max 1 (round (anchorInPatchPx.ah * targetScale))
  let searchW : ℤ := ⌊targetRectPx.tw⌋
  let searchH : ℤ := ⌊targetRectPx.th⌋
  let limitX : ℤ := searchW - tplW
  let limitY : ℤ := searchH - tplH
  if limitX < 0 ∨ limitY < 0 then
    ⟨0, 0, true⟩
  else
    let st := runSearch tplData searchData tplW.toNat tplH.toNat searchW.toNat
      limitX.toNat limitY.toNat
    ⟨(st.bestX : ℚ) - anchorInPatchPx.ax * targetScale,
     (st.bestY : ℚ) - anchorInPatchPx.ay * targetScale, false⟩

/-- The raster-order enumeration of all window offsets the nested loops
visit: `dy` major, `dx` minor. -/
def rasterList (limX limY : ℕ) : List (ℕ × ℕ) :=
  (List.range (limY + 1)).flatMap fun dy =>
    (List.range (limX + 1)).map fun dx => (dx, dy)

/-- The window-offset fold over an arbitrary offset list, from the
initial state; `runSearch` is this fold over the raster offset list. -/
def foldSearch (tpl search : List ℕ) (tplW tplH searchW : ℕ)
    (L : List (ℕ × ℕ)) : SearchState :=
  L.foldl (fun s o => stepOffset tpl search tplW tplH searchW s o.1 o.2) ⟨none, 0, 0⟩

/-- Raster order on window offsets: lower `dy` first, then lower `dx`. -/
def rasterLt (a b : ℕ × ℕ) : Prop :=
  a.2 < b.2 ∨ (a.2 = b.2 ∧ a.1 < b.1)

instance (a b : ℕ × ℕ) : Decidable (rasterLt a b) := by
  unfold rasterLt
  infer_instance

/-- The set of stride-2-sampled template positions whose alpha exceeds
the threshold, stated directly as a filtered finite set (the pixels the
spec says contribute to a score). -/
def qualFinset (tpl : List ℕ) (tplW tplH : ℕ) : Finset (ℕ × ℕ) :=
  (Finset.range tplW ×ˢ Finset.range tplH).filter fun p =>
    p.1 % 2 = 0 ∧ p.2 % 2 = 0 ∧ 40 < alphaAt tpl tplW p

/-- The qualifying sampled positions in loop order (list form of
`qualFinset`). -/
def qualList (tpl : List ℕ) (tplW tplH : ℕ) : List (ℕ × ℕ) :=
  (samplePts tplW tplH).filter fun p => decide (40 < alphaAt tpl tplW p)

/-- Example input: a 1x1 opaque red template buffer. -/
def tplRed : List ℕ := [100, 0, 0, 255]

/-- Example input: a 3x3 search buffer, fully transparent except a
byte-identical copy of `tplRed` at window offset (1,1). -/
def searchRed : List ℕ :=
  [0, 0, 0, 0, 0, 0, 0, 0, 0, 0, 0, 0,
   0, 0, 0, 0, 100, 0, 0, 255, 0, 0, 0, 0,
   0, 0, 0, 0, 0, 0, 0, 0, 0, 0, 0, 0]

/-- Example input: a 1x1 opaque black template buffer. -/
def tplBlack : List ℕ := [0, 0, 0, 255]

/-- Example input: a 3x3 search buffer, fully transparent except a
byte-identical copy of `tplBlack` at window offset (1,1). -/
def searchBlack : List ℕ :=
  [0, 0, 0, 0, 0, 0, 0, 0, 0, 0, 0, 0,
   0, 0, 0, 0, 0, 0, 0, 255, 0, 0, 0, 0,
   0, 0, 0, 0, 0, 0, 0, 0, 0, 0, 0, 0]

/-! ## Theorems -/

/-- Claim C8: converting a normalized value to raw pixels with
`toRawPx` and back with the batch-align normalization returns the value
exactly (so in particular within floating epsilon), and the identical
width-based conversion applies to each of the four fields of a Rect. -/
theorem toRaw_roundtrip (W : ℚ) (r : Rect) (hW : 0 < W) :
    (∀ v : ℚ, toNormalizedPx W (toRawPx W v) = v) ∧
    toNormalizedPx W (toRawPx W r.x) = r.x ∧
    toNormalizedPx W (toRawPx W r.y) = r.y ∧
    toNormalizedPx W (toRawPx W r.w) = r.w ∧
    toNormalizedPx W (toRawPx W r.h) = r.h := by
  have hW0 : W ≠ 0 := ne_of_gt hW
  have key : ∀ v : ℚ, toNormalizedPx W (toRawPx W v) = v := by
    intro v
    unfold toNormalizedPx toRawPx
    field_simp
    ring
  exact ⟨key, key r.x, key r.y, key r.w, key r.h⟩

/-- Witness for C8 at a concrete width and rectangle. -/
theorem toRaw_roundtrip_witness :
    (0 : ℚ) < 2 ∧ toNormalizedPx 2 (toRawPx 2 37) = 37 := by
  refine ⟨by norm_num, ?_⟩
  exact (toRaw_roundtrip 2 ⟨37, 0, 0, 0⟩ (by norm_num)).1 37

/-- Claim C9: with the uniform-size toggle on, `getEffectivePatch`
returns a rect of exactly the master size whose center coincides with
the stored patch center; with the toggle off it is the identity. -/
theorem effective_patch_center (masterSize : MasterSize) (p : Rect) :
    (getEffectivePatch true masterSize p).x + (getEffectivePatch true masterSize p).w / 2 =
      p.x + p.w / 2 ∧
    (getEffectivePatch true masterSize p).y + (getEffectivePatch true masterSize p).h / 2 =
      p.y + p.h / 2 ∧
    (getEffectivePatch true masterSize p).w = masterSize.w ∧
    (getEffectivePatch true masterSize p).h = masterSize.h ∧
    getEffectivePatch false masterSize p = p := by
  unfold getEffectivePatch
  refine ⟨?_, ?_, rfl, rfl, rfl⟩ <;> simp only [if_pos] <;> ring

/-- Claim C6: when the floored search region is smaller than the scaled
template in either axis, `autoAlignTemplate` takes the guard branch and
returns the zero offset together with the logged infeasibility signal;
being a total function it raises no exception. -/
theorem infeasible_returns_zero (tplData searchData : List ℕ)
    (t : TargetRectPx) (a : AnchorInPatchPx) (s : ℚ)
    (h : (⌊t.tw⌋ : ℤ) - max 1 (round (a.aw * s)) < 0 ∨
         (⌊t.th⌋ : ℤ) - max 1 (round (a.ah * s)) < 0) :
    autoAlignTemplate tplData searchData t a s = ⟨0, 0, true⟩ := by
  unfold autoAlignTemplate
  simp only [if_pos h]

/-- Witness for C6: a 1x1 search region with a 5x5 scaled template. -/
theorem infeasible_returns_zero_witness :
    ((⌊((1 : ℚ))⌋ : ℤ) - max 1 (round ((5 : ℚ) * 1)) < 0 ∨
       (⌊((1 : ℚ))⌋ : ℤ) - max 1 (round ((5 : ℚ) * 1)) < 0) ∧
    autoAlignTemplate [] [] ⟨0, 0, 1, 1⟩ ⟨0, 0, 5, 5⟩ 1 = ⟨0, 0, true⟩ := by
  have h : (⌊((1 : ℚ))⌋ : ℤ) - max 1 (round ((5 : ℚ) * 1)) < 0 ∨
      (⌊((1 : ℚ))⌋ : ℤ) - max 1 (round ((5 : ℚ) * 1)) < 0 := by
    left
    norm_num
  exact ⟨h, infeasible_returns_zero [] [] ⟨0, 0, 1, 1⟩ ⟨0, 0, 5, 5⟩ 1 h⟩

/-- Counterexample to claim C2 as stated: `performExport` in the main
App.tsx is a final render whose pre-overlay clear is unconditional, and
with calibration scale 1.1 it clears a 198-pixel-wide rectangle (the
rounded destination rect) while the original target rect is 300 raw
pixels wide — the cleared rectangle tracks destSize and is not the
original target rect. -/
theorem export_clear_not_target_cex :
    (performExport 1000 ⟨0, 0, 1000, 780⟩ ⟨350, 150, 300, 300⟩ ⟨0, 0, 11/10⟩ ⟨0, 0⟩
        ⟨600, 800, 180, 180⟩).clearW = 198 ∧
    toRawPx 1000 (300 : ℚ) = 300 ∧
    ((198 : ℤ) : ℚ) ≠ 300 := by
  refine ⟨?_, by norm_num [toRawPx], by norm_num⟩
  norm_num [performExport, getCompositeCoords, toRawPx]

/-- Claim C2 as amended (restricted to `renderComposite`, the renderer
with the masking toggle): in a final (non-preview) render with masking
enabled, the rect handed to `clearRect` is exactly the original target
face rect converted to raw pixels (x,w scaled by the natural width,
y,h by the natural height, as `renderComposite` converts them),
independent of the calibration, the patch and the master size that
determine the dest rect; after the clear, the four corners and the
center of that raw rect are fully transparent. -/
theorem mask_clears_original_target (nw nh : ℚ) (targetFace : Rect) (cal : Calibration)
    (useMasterSize : Bool) (masterSize : MasterSize) (overlayOpacity : ℚ) (p : Rect)
    (alpha : ℚ → ℚ → ℚ)
    (hnw : 0 ≤ nw) (hnh : 0 ≤ nh) (hw : 0 ≤ targetFace.w) (hh : 0 ≤ targetFace.h) :
    (renderComposite nw nh targetFace cal useMasterSize masterSize overlayOpacity
        true p false).maskRect =
      some ⟨targetFace.x / 1000 * nw, targetFace.y / 1000 * nh,
            targetFace.w / 1000 * nw, targetFace.h / 1000 * nh⟩ ∧
    (∀ (cal2 : Calibration) (us2 : Bool) (ms2 : MasterSize) (op2 : ℚ) (p2 : Rect),
      (renderComposite nw nh targetFace cal2 us2 ms2 op2 true p2 false).maskRect =
        (renderComposite nw nh targetFace cal useMasterSize masterSize overlayOpacity
          true p false).maskRect) ∧
    (∀ r : Rect,
      (renderComposite nw nh targetFace cal useMasterSize masterSize overlayOpacity
          true p false).maskRect = some r →
      clearAlpha alpha r r.x r.y = 0 ∧
      clearAlpha alpha r (r.x + r.w) r.y = 0 ∧
      clearAlpha alpha r r.x (r.y + r.h) = 0 ∧
      clearAlpha alpha r (r.x + r.w) (r.y + r.h) = 0 ∧
      clearAlpha alpha r (r.x + r.w / 2) (r.y + r.h / 2) = 0) := by
  have hmask : ∀ (cal2 : Calibration) (us2 : Bool) (ms2 : MasterSize) (op2 : ℚ) (p2 : Rect),
      (renderComposite nw nh targetFace cal2 us2 ms2 op2 true p2 false).maskRect =
        some ⟨targetFace.x / 1000 * nw, targetFace.y / 1000 * nh,
              targetFace.w / 1000 * nw, targetFace.h / 1000 * nh⟩ := by
    intro cal2 us2 ms2 op2 p2
    simp [renderComposite]
  have hW : 0 ≤ targetFace.w / 1000 * nw := by positivity
  have hH : 0 ≤ targetFace.h / 1000 * nh := by positivity
  refine ⟨hmask cal useMasterSize masterSize overlayOpacity p, ?_, ?_⟩
  · intro cal2 us2 ms2 op2 p2
    rw [hmask, hmask]
  · intro r hr
    rw [hmask cal useMasterSize masterSize overlayOpacity p] at hr
    have hr2 : r = ⟨targetFace.x / 1000 * nw, targetFace.y / 1000 * nh,
        targetFace.w / 1000 * nw, targetFace.h / 1000 * nh⟩ := by
      exact (Option.some_injective _ hr).symm ▸ rfl
    subst hr2
    unfold clearAlpha
    refine ⟨?_, ?_, ?_, ?_, ?_⟩ <;>
      · rw [if_pos]
        constructor
        · linarith
        constructor
        · linarith
        constructor
        · linarith
        · linarith

/-- Witness for C2 at concrete values (a 1000x800 image, an off-center
target face, a non-identity calibration, opaque background alpha). -/
theorem mask_clears_original_target_witness :
    ((0 : ℚ) ≤ 1000 ∧ (0 : ℚ) ≤ 800 ∧ (0 : ℚ) ≤ 300 ∧ (0 : ℚ) ≤ 300) ∧
    (renderComposite 1000 800 ⟨350, 150, 300, 300⟩ ⟨10, -5, 11/10⟩ false ⟨100, 100⟩ 1
        true ⟨0, 0, 180, 180⟩ false).maskRect =
      some ⟨350 / 1000 * 1000, 150 / 1000 * 800, 300 / 1000 * 1000, 300 / 1000 * 800⟩ := by
  refine ⟨⟨by norm_num, by norm_num, by norm_num, by norm_num⟩, ?_⟩
  exact (mask_clears_original_target 1000 800 ⟨350, 150, 300, 300⟩ ⟨10, -5, 11/10⟩
    false ⟨100, 100⟩ 1 ⟨0, 0, 180, 180⟩ (fun _ _ => 1)
    (by norm_num) (by norm_num) (by norm_num) (by norm_num)).1

/-- Counterexample to claim C3 as stated: in `getCompositeCoords` (the
composite geometry the main app draws and exports with), with the
claim's own example data (target rect centered at normalized (500,300),
patch of normalized size 180, Calibration {10,-5,1.1}, width 1000), the
destination origin x is 420 — the raw target-rect origin plus offsets —
and not 411, the raw target center minus destSize/2 plus offsets. -/
theorem composite_origin_center_cex :
    (getCompositeCoords 1000 ⟨410, 210, 180, 180⟩ ⟨10, -5, 11/10⟩ ⟨0, 0⟩
        ⟨600, 800, 180, 180⟩).tx = 420 ∧
    toRawPx 1000 (410 + 180 / 2) -
        (getCompositeCoords 1000 ⟨410, 210, 180, 180⟩ ⟨10, -5, 11/10⟩ ⟨0, 0⟩
          ⟨600, 800, 180, 180⟩).tw / 2 +
        toRawPx 1000 10 + toRawPx 1000 0 = 411 ∧
    (420 : ℚ) ≠ 411 := by
  refine ⟨?_, ?_, by norm_num⟩ <;> norm_num [getCompositeCoords, toRawPx]

/-- Claim C3 as amended: destSize = raw patch size times the calibration
scale holds in both composite implementations.  The center-based
destOrigin formula holds for `renderComposite` (src/unnamed/part_000),
which adds the calibration offsets as raw pixels and takes no per-patch
offset, and with it the claim's numeric example (destSize (198,198),
destOrigin (411,196)) holds on a 1000x1000 image.  `getCompositeCoords`
(src/App.tsx) instead places the destination origin at the raw
target-rect origin plus the raw per-patch and calibration offsets. -/
theorem composite_geometry (W : ℚ) (f : Rect) (cal : Calibration) (off : PatchOffset)
    (p : Rect) (nw nh : ℚ) (tf : Rect) (ms : MasterSize) (us em ip : Bool) (op : ℚ) :
    (getCompositeCoords W f cal off p).tw =
      (getCompositeCoords W f cal off p).sw * cal.scale ∧
    (getCompositeCoords W f cal off p).th =
      (getCompositeCoords W f cal off p).sh * cal.scale ∧
    (getCompositeCoords W f cal off p).tx =
      toRawPx W f.x + toRawPx W off.dx + toRawPx W cal.offsetX ∧
    (getCompositeCoords W f cal off p).ty =
      toRawPx W f.y + toRawPx W off.dy + toRawPx W cal.offsetY ∧
    (renderComposite nw nh tf cal us ms op em p ip).tW =
      (renderComposite nw nh tf cal us ms op em p ip).pW * cal.scale ∧
    (renderComposite nw nh tf cal us ms op em p ip).tH =
      (renderComposite nw nh tf cal us ms op em p ip).pH * cal.scale ∧
    (renderComposite nw nh tf cal us ms op em p ip).tX =
      (tf.x + tf.w / 2) / 1000 * nw -
        (renderComposite nw nh tf cal us ms op em p ip).tW / 2 + cal.offsetX ∧
    (renderComposite nw nh tf cal us ms op em p ip).tY =
      (tf.y + tf.h / 2) / 1000 * nh -
        (renderComposite nw nh tf cal us ms op em p ip).tH / 2 + cal.offsetY ∧
    (renderComposite 1000 1000 ⟨410, 210, 180, 180⟩ ⟨10, -5, 11/10⟩ false ⟨100, 100⟩ 1
        true ⟨600, 800, 180, 180⟩ false).tW = 198 ∧
    (renderComposite 1000 1000 ⟨410, 210, 180, 180⟩ ⟨10, -5, 11/10⟩ false ⟨100, 100⟩ 1
        true ⟨600, 800, 180, 180⟩ false).tH = 198 ∧
    (renderComposite 1000 1000 ⟨410, 210, 180, 180⟩ ⟨10, -5, 11/10⟩ false ⟨100, 100⟩ 1
        true ⟨600, 800, 180, 180⟩ false).tX = 411 ∧
    (renderComposite 1000 1000 ⟨410, 210, 180, 180⟩ ⟨10, -5, 11/10⟩ false ⟨100, 100⟩ 1
        true ⟨600, 800, 180, 180⟩ false).tY = 196 := by
  refine ⟨rfl, rfl, rfl, rfl, rfl, rfl, rfl, rfl, ?_, ?_, ?_, ?_⟩ <;>
    norm_num [renderComposite, getEffectivePatch]

/-- Length of a row-major grid enumeration. -/
theorem flatMap_grid_length {α : Type} (f : ℕ → ℕ → α) (C : ℕ) (R : ℕ) :
    ((List.range R).flatMap fun r => (List.range C).map fun c => f r c).length = R * C := by
  induction R with
  | zero => simp
  | succ n ih =>
    rw [List.range_succ, List.flatMap_append, List.length_append, ih]
    simp [Nat.succ_mul]

/-- Element `i` of a row-major grid enumeration is at row `i / C`,
column `i % C`. -/
theorem flatMap_grid_getD {α : Type} (f : ℕ → ℕ → α) (d : α) (C : ℕ) :
    ∀ R i, i < R * C →
      ((List.range R).flatMap fun r => (List.range C).map fun c => f r c).getD i d =
        f (i / C) (i % C) := by
  intro R
  induction R with
  | zero => intro i hi; simp at hi
  | succ n ih =>
    intro i hi
    rw [List.range_succ, List.flatMap_append]
    by_cases h : i < n * C
    · rw [List.getD_append _ _ _ _ (by rw [flatMap_grid_length]; exact h)]
      exact ih i h
    · have h1 : n * C ≤ i := Nat.le_of_not_lt h
      rw [Nat.succ_mul] at hi
      have hjC : i - n * C < C := by
        have h2 := Nat.sub_lt_sub_right h1 hi
        rwa [Nat.add_sub_cancel_left] at h2
      have hC : 0 < C := Nat.lt_of_le_of_lt (Nat.zero_le _) hjC
      have hisplit : C * n + (i - n * C) = i := by
        rw [mul_comm]
        exact Nat.add_sub_cancel' h1
      have hdiv : i / C = n := by
        conv_lhs => rw [← hisplit]
        rw [Nat.mul_add_div hC, Nat.div_eq_of_lt hjC, Nat.add_zero]
      have hmod : i % C = i - n * C := by
        conv_lhs => rw [← hisplit]
        rw [Nat.mul_add_mod, Nat.mod_eq_of_lt hjC]
      rw [List.getD_append_right _ _ _ _ (by rw [flatMap_grid_length]; exact h1),
        flatMap_grid_length, hdiv, hmod]
      simp only [List.flatMap_cons, List.flatMap_nil, List.append_nil]
      rw [List.getD_eq_getElem _ _ (by simpa using hjC), List.getElem_map,
        List.getElem_range]

/-- Claim C7: the grid generator yields exactly rows*cols rects in
row-major order; index `i` sits at row `i / cols`, column `i % cols`,
with center `origin + (col*spacingX, row*spacingY)` and origin shifted
back by half the patch size. -/
theorem grid_layout_rowmajor (g : GridConfig) :
    (currentPatches g).length = g.rows * g.cols ∧
    (∀ i, i < g.rows * g.cols →
      (currentPatches g).getD i ⟨0, 0, 0, 0⟩ =
        ⟨g.originX + ((i % g.cols : ℕ) : ℚ) * g.spacingX - g.patchW / 2,
         g.originY + ((i / g.cols : ℕ) : ℚ) * g.spacingY - g.patchH / 2,
         g.patchW, g.patchH⟩) := by
  unfold currentPatches
  constructor
  · apply flatMap_grid_length
  · intro i hi
    exact flatMap_grid_getD _ (⟨0, 0, 0, 0⟩ : Rect) g.cols g.rows i hi

/-- Witness for C7: the claim's example GridConfig yields 8 patches and
patch index 5 (row 1, col 1) is the rect (290, 940, 180, 180). -/
theorem grid_layout_rowmajor_witness :
    (currentPatches ⟨200, 850, 180, 180, 180, 180, 4, 2⟩).length = 8 ∧
    (currentPatches ⟨200, 850, 180, 180, 180, 180, 4, 2⟩).getD 5 ⟨0, 0, 0, 0⟩ =
      ⟨290, 940, 180, 180⟩ := by
  have h := grid_layout_rowmajor ⟨200, 850, 180, 180, 180, 180, 4, 2⟩
  refine ⟨h.1, ?_⟩
  rw [h.2 5 (by norm_num)]
  norm_num

/-- Claim C10: after the reconciliation effect runs, the per-patch
offset array has length rows*cols, and whenever the stored length
differs from the new patch count the whole array is replaced by zero
offsets, discarding prior values. -/
theorem patch_offsets_reset (current : List PatchOffset) (g : GridConfig) :
    (reconcilePatchOffsets current (currentPatches g).length).length = g.rows * g.cols ∧
    (current.length ≠ g.rows * g.cols →
      reconcilePatchOffsets current (currentPatches g).length =
        List.replicate (g.rows * g.cols) ⟨0, 0⟩) := by
  have hlen : (currentPatches g).length = g.rows * g.cols := by
    unfold currentPatches
    apply flatMap_grid_length
  unfold reconcilePatchOffsets
  rw [hlen]
  constructor
  · by_cases h : current.length ≠ g.rows * g.cols
    · rw [if_pos h, List.length_replicate]
    · rw [if_neg h]
      exact not_not.mp h
  · intro h
    rw [if_pos h]

/-- Witness for C10: an empty stored array against the example grid of
8 patches is replaced by 8 zero offsets. -/
theorem patch_offsets_reset_witness :
    (([] : List PatchOffset).length ≠ 8) ∧
    reconcilePatchOffsets [] (currentPatches ⟨200, 850, 180, 180, 180, 180, 4, 2⟩).length =
      List.replicate 8 ⟨0, 0⟩ := by
  refine ⟨by norm_num, ?_⟩
  exact (patch_offsets_reset [] ⟨200, 850, 180, 180, 180, 180, 4, 2⟩).2 (by norm_num)

/-! ### Aligner bookkeeping lemmas -/

/-- Accumulating a guarded sum and count by `foldl` equals summing and
counting over the filtered list. -/
theorem foldl_accum_pair {α : Type} (q : α → Prop) [DecidablePred q] (f : α → ℕ) :
    ∀ (L : List α) (a b : ℕ),
      L.foldl (fun acc p => if q p then (acc.1 + f p, acc.2 + 1) else acc) (a, b) =
        (a + ((L.filter fun p => decide (q p)).map f).sum,
         b + (L.filter fun p => decide (q p)).length) := by
  intro L
  induction L with
  | nil => intro a b; simp
  | cons x L ih =>
    intro a b
    by_cases h : q x
    · simp only [List.foldl_cons, if_pos h, List.filter_cons, decide_eq_true h, if_true,
        ih, List.map_cons, List.sum_cons, List.length_cons, Prod.mk.injEq]
      constructor <;> omega
    · simp only [List.foldl_cons, if_neg h, List.filter_cons, decide_eq_false h, ih]
      simp

/-- The inner sampling loops compute the sum of the per-pixel diffs over
the qualifying sampled pixels and their count. -/
theorem diffWeightAt_eq (tpl search : List ℕ) (tplW tplH searchW dx dy : ℕ) :
    diffWeightAt tpl search tplW tplH searchW dx dy =
      (((qualList tpl tplW tplH).map (pixDiff tpl search tplW searchW dx dy)).sum,
       (qualList tpl tplW tplH).length) := by
  unfold diffWeightAt qualList
  have h := foldl_accum_pair (fun p => 40 < alphaAt tpl tplW p)
    (pixDiff tpl search tplW searchW dx dy) (samplePts tplW tplH) 0 0
  simpa using h

/-- A window offset is scored exactly when some sampled template pixel
qualifies; in particular being scored does not depend on the offset. -/
theorem scored_iff (tpl search : List ℕ) (tplW tplH searchW : ℕ) (o : ℕ × ℕ) :
    scored tpl search tplW tplH searchW o ↔ qualList tpl tplW tplH ≠ [] := by
  unfold scored
  rw [diffWeightAt_eq]
  simp [List.length_pos]

/-- Membership in the stride-2 sample enumeration. -/
theorem mem_samplePts {tplW tplH : ℕ} {p : ℕ × ℕ} :
    p ∈ samplePts tplW tplH ↔
      p.1 < tplW ∧ p.1 % 2 = 0 ∧ p.2 < tplH ∧ p.2 % 2 = 0 := by
  obtain ⟨a, b⟩ := p
  simp only [samplePts, sampleStride2, List.mem_flatMap, List.mem_map, List.mem_filter,
    List.mem_range, decide_eq_true_eq, Prod.mk.injEq]
  constructor
  · rintro ⟨py, ⟨hpy, hpy2⟩, px, ⟨hpx, hpx2⟩, rfl, rfl⟩
    exact ⟨hpx, hpx2, hpy, hpy2⟩
  · rintro ⟨h1, h2, h3, h4⟩
    exact ⟨b, ⟨h3, h4⟩, a, ⟨h1, h2⟩, rfl, rfl⟩

/-- Membership in the qualifying-pixel list. -/
theorem mem_qualList {tpl : List ℕ} {tplW tplH : ℕ} {p : ℕ × ℕ} :
    p ∈ qualList tpl tplW tplH ↔
      p.1 < tplW ∧ p.1 % 2 = 0 ∧ p.2 < tplH ∧ p.2 % 2 = 0 ∧ 40 < alphaAt tpl tplW p := by
  unfold qualList
  rw [List.mem_filter, mem_samplePts]
  simp
  tauto

/-- An unscored offset leaves the search state unchanged. -/
theorem stepOffset_unscored (tpl search : List ℕ) (tplW tplH searchW : ℕ)
    (st : SearchState) (dx dy : ℕ)
    (h : ¬ 0 < (diffWeightAt tpl search tplW tplH searchW dx dy).2) :
    stepOffset tpl search tplW tplH searchW st dx dy = st := by
  unfold stepOffset
  rw [if_neg h]

/-- A scored offset updates the state exactly when its score beats the
running minimum (with `Infinity` beaten by everything). -/
theorem stepOffset_scored (tpl search : List ℕ) (tplW tplH searchW : ℕ)
    (st : SearchState) (dx dy : ℕ)
    (h : 0 < (diffWeightAt tpl search tplW tplH searchW dx dy).2) :
    stepOffset tpl search tplW tplH searchW st dx dy =
      match st.minDiff with
      | none => ⟨some (scoreAt tpl search tplW tplH searchW (dx, dy)), dx, dy⟩
      | some m =>
        if scoreAt tpl search tplW tplH searchW (dx, dy) < m then
          ⟨some (scoreAt tpl search tplW tplH searchW (dx, dy)), dx, dy⟩
        else st := by
  unfold stepOffset scoreAt
  rw [if_pos h]

/-- Folding a function over a list where every element acts as the
identity returns the initial state. -/
theorem foldl_id {α β : Type} (f : β → α → β) (L : List α)
    (h : ∀ b a, a ∈ L → f b a = b) : ∀ st : β, L.foldl f st = st := by
  induction L with
  | nil => intro st; rfl
  | cons x L ih =>
    intro st
    rw [List.foldl_cons, h st x (List.mem_cons_self x L)]
    exact ih (fun b a ha => h b a (List.mem_cons_of_mem x ha)) st

/-- With no qualifying template pixel the whole search is a no-op and
the state stays at its initialization. -/
theorem runSearch_unscored (tpl search : List ℕ) (tplW tplH searchW limX limY : ℕ)
    (h : qualList tpl tplW tplH = []) :
    runSearch tpl search tplW tplH searchW limX limY = ⟨none, 0, 0⟩ := by
  unfold runSearch
  apply foldl_id
  intro st dy hdy
  apply foldl_id
  intro st2 dx hdx
  apply stepOffset_unscored
  rw [diffWeightAt_eq, h]
  simp

/-- Folding over a flatMap is the nested fold. -/
theorem foldl_flatMap {α β γ : Type} (g : α → List β) (f : γ → β → γ) :
    ∀ (L : List α) (init : γ),
      (L.flatMap g).foldl f init = L.foldl (fun st a => (g a).foldl f st) init := by
  intro L
  induction L with
  | nil => intro init; rfl
  | cons x L ih =>
    intro init
    rw [List.flatMap_cons, List.foldl_append, List.foldl_cons, ih]

/-- The nested window loops equal one fold over the raster-ordered
offset list. -/
theorem runSearch_eq_raster (tpl search : List ℕ) (tplW tplH searchW limX limY : ℕ) :
    runSearch tpl search tplW tplH searchW limX limY =
      foldSearch tpl search tplW tplH searchW (rasterList limX limY) := by
  unfold runSearch rasterList foldSearch
  rw [foldl_flatMap]
  congr 1
  funext st dy
  rw [List.foldl_map]

/-- Appending one offset to the fold steps the state once. -/
theorem foldSearch_append (tpl search : List ℕ) (tplW tplH searchW : ℕ)
    (L : List (ℕ × ℕ)) (o : ℕ × ℕ) :
    foldSearch tpl search tplW tplH searchW (L ++ [o]) =
      stepOffset tpl search tplW tplH searchW
        (foldSearch tpl search tplW tplH searchW L) o.1 o.2 := by
  unfold foldSearch
  rw [List.foldl_append, List.foldl_cons, List.foldl_nil]

/-- Raster order is irreflexive. -/
theorem rasterLt_irrefl (a : ℕ × ℕ) : ¬ rasterLt a a := by
  unfold rasterLt
  omega

/-- Raster order is asymmetric. -/
theorem rasterLt_asymm {a b : ℕ × ℕ} (h : rasterLt a b) : ¬ rasterLt b a := by
  unfold rasterLt at h ⊢
  omega

/-- Raster order is total. -/
theorem rasterLt_total (a b : ℕ × ℕ) : rasterLt a b ∨ a = b ∨ rasterLt b a := by
  rw [Prod.ext_iff]
  unfold rasterLt
  omega

/-- Raster-ordered elements are distinct. -/
theorem rasterLt_ne {a b : ℕ × ℕ} (h : rasterLt a b) : a ≠ b := by
  intro hab
  exact rasterLt_irrefl a (hab ▸ h)

/-- A grid enumeration built from two strictly increasing index lists is
strictly raster-ordered. -/
theorem pairwise_grid (L1 : List ℕ) (h1 : L1.Pairwise (· < ·)) :
    ∀ L2 : List ℕ, L2.Pairwise (· < ·) →
      (L2.flatMap fun y => L1.map fun x => ((x, y) : ℕ × ℕ)).Pairwise rasterLt := by
  intro L2
  induction L2 with
  | nil => intro _; simp
  | cons y L2 ih =>
    intro h2
    rw [List.pairwise_cons] at h2
    rw [List.flatMap_cons, List.pairwise_append]
    refine ⟨?_, ih h2.2, ?_⟩
    · rw [List.pairwise_map]
      exact h1.imp fun hab => Or.inr ⟨rfl, hab⟩
    · intro a ha b hb
      obtain ⟨x, -, rfl⟩ := List.mem_map.mp ha
      obtain ⟨y2, hy2, hb2⟩ := List.mem_flatMap.mp hb
      obtain ⟨x2, -, rfl⟩ := List.mem_map.mp hb2
      exact Or.inl (h2.1 y2 hy2)

/-- The raster offset list is strictly raster-ordered. -/
theorem rasterList_pairwise (limX limY : ℕ) : (rasterList limX limY).Pairwise rasterLt := by
  unfold rasterList
  exact pairwise_grid _ (List.pairwise_lt_range _) _ (List.pairwise_lt_range _)

/-- Membership in the raster offset list is exactly the claim's offset
range. -/
theorem mem_rasterList {limX limY : ℕ} {o : ℕ × ℕ} :
    o ∈ rasterList limX limY ↔ o.1 ≤ limX ∧ o.2 ≤ limY := by
  obtain ⟨a, b⟩ := o
  simp only [rasterList, List.mem_flatMap, List.mem_map, List.mem_range, Prod.mk.injEq,
    Nat.lt_succ_iff]
  constructor
  · rintro ⟨dy, hdy, dx, hdx, rfl, rfl⟩
    exact ⟨hdx, hdy⟩
  · rintro ⟨h1, h2⟩
    exact ⟨b, h2, a, h1, rfl, rfl⟩

/-- Sample points are strictly raster-ordered, hence duplicate-free. -/
theorem samplePts_nodup (tplW tplH : ℕ) : (samplePts tplW tplH).Nodup := by
  have hp : (samplePts tplW tplH).Pairwise rasterLt := by
    unfold samplePts
    exact pairwise_grid _
      ((List.pairwise_lt_range _).sublist (List.filter_sublist _)) _
      ((List.pairwise_lt_range _).sublist (List.filter_sublist _))
  exact hp.imp fun h => rasterLt_ne h

/-- The qualifying-pixel list has no duplicates. -/
theorem qualList_nodup (tpl : List ℕ) (tplW tplH : ℕ) : (qualList tpl tplW tplH).Nodup :=
  (samplePts_nodup tplW tplH).filter _

/-- The qualifying-pixel list enumerates exactly the spec's qualifying
pixel set. -/
theorem qualList_toFinset (tpl : List ℕ) (tplW tplH : ℕ) :
    (qualList tpl tplW tplH).toFinset = qualFinset tpl tplW tplH := by
  ext p
  rw [List.mem_toFinset, mem_qualList]
  unfold qualFinset
  rw [Finset.mem_filter, Finset.mem_product, Finset.mem_range, Finset.mem_range]
  tauto

/-- The score of any window offset is the mean absolute per-channel RGB
difference over the qualifying sampled template pixels. -/
theorem scoreAt_mean (tpl search : List ℕ) (tplW tplH searchW dx dy : ℕ) :
    scoreAt tpl search tplW tplH searchW (dx, dy) =
      ((∑ p ∈ qualFinset tpl tplW tplH, pixDiff tpl search tplW searchW dx dy p : ℕ) : ℚ) /
        (((qualFinset tpl tplW tplH).card : ℕ) : ℚ) := by
  unfold scoreAt
  rw [diffWeightAt_eq]
  rw [← qualList_toFinset tpl tplW tplH,
    List.sum_toFinset _ (qualList_nodup tpl tplW tplH),
    List.toFinset_card_of_nodup (qualList_nodup tpl tplW tplH)]

/-- First-argmin characterization of the window-offset fold: over any
strictly raster-ordered offset list, either nothing is scored and the
state stays initial, or the state holds the raster-first offset
attaining the minimum score among scored offsets. -/
theorem search_fold_inv (tpl search : List ℕ) (tplW tplH searchW : ℕ) :
    ∀ L : List (ℕ × ℕ), L.Pairwise rasterLt →
      ((foldSearch tpl search tplW tplH searchW L).minDiff = none →
        foldSearch tpl search tplW tplH searchW L = ⟨none, 0, 0⟩ ∧
        ∀ o ∈ L, ¬ scored tpl search tplW tplH searchW o) ∧
      (∀ m : ℚ, (foldSearch tpl search tplW tplH searchW L).minDiff = some m →
        ((foldSearch tpl search tplW tplH searchW L).bestX,
         (foldSearch tpl search tplW tplH searchW L).bestY) ∈ L ∧
        scored tpl search tplW tplH searchW
          ((foldSearch tpl search tplW tplH searchW L).bestX,
           (foldSearch tpl search tplW tplH searchW L).bestY) ∧
        scoreAt tpl search tplW tplH searchW
          ((foldSearch tpl search tplW tplH searchW L).bestX,
           (foldSearch tpl search tplW tplH searchW L).bestY) = m ∧
        (∀ o ∈ L, scored tpl search tplW tplH searchW o →
          m ≤ scoreAt tpl search tplW tplH searchW o) ∧
        (∀ o ∈ L, scored tpl search tplW tplH searchW o →
          scoreAt tpl search tplW tplH searchW o = m →
          ¬ rasterLt o ((foldSearch tpl search tplW tplH searchW L).bestX,
            (foldSearch tpl search tplW tplH searchW L).bestY))) := by
  intro L
  induction L using List.reverseRecOn with
  | nil =>
    intro _
    refine ⟨fun _ => ⟨rfl, by simp⟩, fun m hm => ?_⟩
    simp only [foldSearch, List.foldl_nil] at hm
    simp at hm
  | append_singleton L o ih =>
    intro hpair
    rw [List.pairwise_append] at hpair
    obtain ⟨hL, -, hcross⟩ := hpair
    have hcross2 : ∀ a ∈ L, rasterLt a o := fun a ha =>
      hcross a ha o (List.mem_singleton.mpr rfl)
    have ihp := ih hL
    rw [foldSearch_append]
    by_cases hsc : scored tpl search tplW tplH searchW o
    · rw [stepOffset_scored tpl search tplW tplH searchW _ o.1 o.2 hsc]
      cases hpm : (foldSearch tpl search tplW tplH searchW L).minDiff with
      | none =>
        obtain ⟨hinit, hnone⟩ := ihp.1 hpm
        simp only [hpm]
        constructor
        · intro habs
          simp at habs
        · intro m hm
          have hm2 : m = scoreAt tpl search tplW tplH searchW (o.1, o.2) :=
            (Option.some_injective _ hm).symm
          subst hm2
          refine ⟨?_, hsc, rfl, ?_, ?_⟩
          · exact List.mem_append_right L (List.mem_singleton.mpr rfl)
          · intro x hx hscx
            rcases List.mem_append.mp hx with hx1 | hx2
            · exact absurd hscx (hnone x hx1)
            · rw [List.mem_singleton.mp hx2]
          · intro x hx hscx hscoreeq
            rcases List.mem_append.mp hx with hx1 | hx2
            · exact absurd hscx (hnone x hx1)
            · rw [List.mem_singleton.mp hx2]
              exact rasterLt_irrefl o
      | some m0 =>
        obtain ⟨hmem, hscb, hscoreb, hmin, htie⟩ := ihp.2 m0 hpm
        simp only [hpm]
        by_cases hlt : scoreAt tpl search tplW tplH searchW (o.1, o.2) < m0
        · rw [if_pos hlt]
          constructor
          · intro habs
            simp at habs
          · intro m hm
            have hm2 : m = scoreAt tpl search tplW tplH searchW (o.1, o.2) :=
              (Option.some_injective _ hm).symm
            subst hm2
            refine ⟨List.mem_append_right L (List.mem_singleton.mpr rfl), hsc, rfl, ?_, ?_⟩
            · intro x hx hscx
              rcases List.mem_append.mp hx with hx1 | hx2
              · exact le_of_lt (lt_of_lt_of_le hlt (hmin x hx1 hscx))
              · rw [List.mem_singleton.mp hx2]
            · intro x hx hscx hscoreeq
              rcases List.mem_append.mp hx with hx1 | hx2
              · exfalso
                have h1 := hmin x hx1 hscx
                rw [hscoreeq] at h1
                exact absurd hlt (not_lt_of_le h1)
              · rw [List.mem_singleton.mp hx2]
                exact rasterLt_irrefl o
        · rw [if_neg hlt]
          constructor
          · intro habs
            rw [habs] at hpm
            simp at hpm
          · intro m hm
            rw [hm] at hpm
            have hm2 : m = m0 := Option.some_injective _ hpm
            subst hm2
            refine ⟨List.mem_append_left _ hmem, hscb, hscoreb, ?_, ?_⟩
            · intro x hx hscx
              rcases List.mem_append.mp hx with hx1 | hx2
              · exact hmin x hx1 hscx
              · rw [List.mem_singleton.mp hx2]
                exact le_of_not_lt hlt
            · intro x hx hscx hscoreeq
              rcases List.mem_append.mp hx with hx1 | hx2
              · exact htie x hx1 hscx hscoreeq
              · rw [List.mem_singleton.mp hx2]
                exact rasterLt_asymm (hcross2 _ hmem)
    · have hsc2 : ¬ 0 < (diffWeightAt tpl search tplW tplH searchW o.1 o.2).2 := hsc
      rw [stepOffset_unscored tpl search tplW tplH searchW _ o.1 o.2 hsc2]
      constructor
      · intro hnone
        obtain ⟨hinit, hall⟩ := ihp.1 hnone
        refine ⟨hinit, ?_⟩
        intro x hx
        rcases List.mem_append.mp hx with hx1 | hx2
        · exact hall x hx1
        · rw [List.mem_singleton.mp hx2]
          exact hsc
      · intro m hm
        obtain ⟨hmem, hscb, hscoreb, hmin, htie⟩ := ihp.2 m hm
        refine ⟨List.mem_append_left _ hmem, hscb, hscoreb, ?_, ?_⟩
        · intro x hx hscx
          rcases List.mem_append.mp hx with hx1 | hx2
          · exact hmin x hx1 hscx
          · exact absurd hscx ((List.mem_singleton.mp hx2) ▸ hsc)
        · intro x hx hscx hscoreeq
          rcases List.mem_append.mp hx with hx1 | hx2
          · exact htie x hx1 hscx hscoreeq
          · exact absurd hscx ((List.mem_singleton.mp hx2) ▸ hsc)

/-- Claim C5: on a feasible input the search ranges over every window
offset with 0 <= dx <= searchW - tplW and 0 <= dy <= searchH - tplH;
the score of an offset is the mean absolute per-channel RGB difference
over the stride-2-sampled template pixels whose alpha exceeds 40; when
any scored offset exists the selected offset is scored (an unscored
offset is never preferred), attains the minimum score, and among equal
minima is the raster-order-first one. -/
theorem search_evaluates_argmin (tpl search : List ℕ)
    (tplW tplH searchW searchH limX limY : ℕ)
    (hx : tplW ≤ searchW) (hy : tplH ≤ searchH)
    (hlx : limX = searchW - tplW) (hly : limY = searchH - tplH)
    (hex : ∃ o : ℕ × ℕ, o.1 ≤ limX ∧ o.2 ≤ limY ∧ scored tpl search tplW tplH searchW o) :
    scored tpl search tplW tplH searchW
      ((runSearch tpl search tplW tplH searchW limX limY).bestX,
       (runSearch tpl search tplW tplH searchW limX limY).bestY) ∧
    (runSearch tpl search tplW tplH searchW limX limY).bestX ≤ limX ∧
    (runSearch tpl search tplW tplH searchW limX limY).bestY ≤ limY ∧
    (∀ dx dy : ℕ, dx ≤ limX → dy ≤ limY → scored tpl search tplW tplH searchW (dx, dy) →
      scoreAt tpl search tplW tplH searchW
        ((runSearch tpl search tplW tplH searchW limX limY).bestX,
         (runSearch tpl search tplW tplH searchW limX limY).bestY) ≤
        scoreAt tpl search tplW tplH searchW (dx, dy)) ∧
    (∀ dx dy : ℕ, dx ≤ limX → dy ≤ limY → scored tpl search tplW tplH searchW (dx, dy) →
      scoreAt tpl search tplW tplH searchW (dx, dy) =
        scoreAt tpl search tplW tplH searchW
          ((runSearch tpl search tplW tplH searchW limX limY).bestX,
           (runSearch tpl search tplW tplH searchW limX limY).bestY) →
      ¬ rasterLt (dx, dy)
        ((runSearch tpl search tplW tplH searchW limX limY).bestX,
         (runSearch tpl search tplW tplH searchW limX limY).bestY)) ∧
    (∀ dx dy : ℕ,
      scoreAt tpl search tplW tplH searchW (dx, dy) =
        ((∑ p ∈ qualFinset tpl tplW tplH,
            pixDiff tpl search tplW searchW dx dy p : ℕ) : ℚ) /
          (((qualFinset tpl tplW tplH).card : ℕ) : ℚ)) := by
  rw [runSearch_eq_raster]
  have hinv := search_fold_inv tpl search tplW tplH searchW (rasterList limX limY)
    (rasterList_pairwise limX limY)
  cases hmd : (foldSearch tpl search tplW tplH searchW (rasterList limX limY)).minDiff with
  | none =>
    exfalso
    obtain ⟨o, h1, h2, h3⟩ := hex
    exact (hinv.1 hmd).2 o (mem_rasterList.mpr ⟨h1, h2⟩) h3
  | some m =>
    obtain ⟨hmem, hscb, hscoreb, hmin, htie⟩ := hinv.2 m hmd
    refine ⟨hscb, (mem_rasterList.mp hmem).1, (mem_rasterList.mp hmem).2, ?_, ?_, ?_⟩
    · intro dx dy h1 h2 h3
      rw [hscoreb]
      exact hmin (dx, dy) (mem_rasterList.mpr ⟨h1, h2⟩) h3
    · intro dx dy h1 h2 h3 heq
      apply htie (dx, dy) (mem_rasterList.mpr ⟨h1, h2⟩) h3
      rw [heq, hscoreb]
    · intro dx dy
      exact scoreAt_mean tpl search tplW tplH searchW dx dy

/-- Witness for C5 on the red-template fixture: a scored offset exists,
and the characterization holds at template 1x1, search 3x3. -/
theorem search_evaluates_argmin_witness :
    ((1 : ℕ) ≤ 3 ∧ (1 : ℕ) ≤ 3 ∧ (2 : ℕ) = 3 - 1 ∧ (2 : ℕ) = 3 - 1 ∧
      (∃ o : ℕ × ℕ, o.1 ≤ 2 ∧ o.2 ≤ 2 ∧ scored tplRed searchRed 1 1 3 o)) ∧
    (scored tplRed searchRed 1 1 3
      ((runSearch tplRed searchRed 1 1 3 2 2).bestX,
       (runSearch tplRed searchRed 1 1 3 2 2).bestY) ∧
    (runSearch tplRed searchRed 1 1 3 2 2).bestX ≤ 2 ∧
    (runSearch tplRed searchRed 1 1 3 2 2).bestY ≤ 2 ∧
    (∀ dx dy : ℕ, dx ≤ 2 → dy ≤ 2 → scored tplRed searchRed 1 1 3 (dx, dy) →
      scoreAt tplRed searchRed 1 1 3
        ((runSearch tplRed searchRed 1 1 3 2 2).bestX,
         (runSearch tplRed searchRed 1 1 3 2 2).bestY) ≤
        scoreAt tplRed searchRed 1 1 3 (dx, dy)) ∧
    (∀ dx dy : ℕ, dx ≤ 2 → dy ≤ 2 → scored tplRed searchRed 1 1 3 (dx, dy) →
      scoreAt tplRed searchRed 1 1 3 (dx, dy) =
        scoreAt tplRed searchRed 1 1 3
          ((runSearch tplRed searchRed 1 1 3 2 2).bestX,
           (runSearch tplRed searchRed 1 1 3 2 2).bestY) →
      ¬ rasterLt (dx, dy)
        ((runSearch tplRed searchRed 1 1 3 2 2).bestX,
         (runSearch tplRed searchRed 1 1 3 2 2).bestY)) ∧
    (∀ dx dy : ℕ,
      scoreAt tplRed searchRed 1 1 3 (dx, dy) =
        ((∑ p ∈ qualFinset tplRed 1 1,
            pixDiff tplRed searchRed 1 3 dx dy p : ℕ) : ℚ) /
          (((qualFinset tplRed 1 1).card : ℕ) : ℚ))) := by
  have hex : ∃ o : ℕ × ℕ, o.1 ≤ 2 ∧ o.2 ≤ 2 ∧ scored tplRed searchRed 1 1 3 o :=
    ⟨(0, 0), by norm_num, by norm_num, by decide⟩
  exact ⟨⟨by norm_num, by norm_num, by norm_num, by norm_num, hex⟩,
    search_evaluates_argmin tplRed searchRed 1 1 3 3 2 2 (by norm_num) (by norm_num)
      (by norm_num) (by norm_num) hex⟩

/-- Counterexample to claim C4 as stated: the search region contains a
byte-identical copy of the 1x1 opaque black template at window offset
(1,1), with everything else fully transparent, yet the search selects
offset (0,0) — a pure-black template scores 0 against the transparent
(RGB 0,0,0) background as well, and the raster-first zero wins. -/
theorem exact_match_first_zero_cex :
    (∀ px, px < 1 → ∀ py, py < 1 → ∀ k, k < 4 →
      searchBlack.getD (((py + 1) * 3 + (px + 1)) * 4 + k) 0 =
        tplBlack.getD ((py * 1 + px) * 4 + k) 0) ∧
    (∃ p ∈ samplePts 1 1, 40 < alphaAt tplBlack 1 p) ∧
    scoreAt tplBlack searchBlack 1 1 3 (1, 1) = 0 ∧
    (runSearch tplBlack searchBlack 1 1 3 2 2).bestX = 0 ∧
    (runSearch tplBlack searchBlack 1 1 3 2 2).bestY = 0 ∧
    ¬(((0 : ℕ), (0 : ℕ)) = ((1 : ℕ), (1 : ℕ))) := by
  have hz : ∀ m : ℕ, searchBlack.getD (m * 4) 0 = 0 ∧
      searchBlack.getD (m * 4 + 1) 0 = 0 ∧ searchBlack.getD (m * 4 + 2) 0 = 0 := by
    intro m
    by_cases hm : m < 9
    · interval_cases m <;> exact ⟨by decide, by decide, by decide⟩
    · have hlen : searchBlack.length = 36 := by decide
      refine ⟨?_, ?_, ?_⟩ <;> (rw [List.getD_eq_default] <;> omega)
  have hscore : ∀ dx dy : ℕ, scoreAt tplBlack searchBlack 1 1 3 (dx, dy) = 0 := by
    intro dx dy
    have hdw : (diffWeightAt tplBlack searchBlack 1 1 3 dx dy).1 = 0 := by
      rw [diffWeightAt_eq]
      apply List.sum_eq_zero
      intro x hxm
      obtain ⟨p, hp, rfl⟩ := List.mem_map.mp hxm
      have hp2 : p = (0, 0) := by
        have hb := mem_qualList.mp hp
        obtain ⟨a, b⟩ := p
        simp only [Prod.mk.injEq]
        omega
      subst hp2
      obtain ⟨u0, u1, u2⟩ := hz ((0 + dy) * 3 + (0 + dx))
      simp only [pixDiff]
      rw [u0, u1, u2]
      decide
    unfold scoreAt
    rw [hdw]
    simp
  have hbest : ((runSearch tplBlack searchBlack 1 1 3 2 2).bestX,
      (runSearch tplBlack searchBlack 1 1 3 2 2).bestY) = ((0 : ℕ), (0 : ℕ)) := by
    rw [runSearch_eq_raster]
    have hinv := search_fold_inv tplBlack searchBlack 1 1 3 (rasterList 2 2)
      (rasterList_pairwise 2 2)
    cases hmd : (foldSearch tplBlack searchBlack 1 1 3 (rasterList 2 2)).minDiff with
    | none =>
      exfalso
      exact (hinv.1 hmd).2 (0, 0) (mem_rasterList.mpr ⟨by norm_num, by norm_num⟩)
        (by decide)
    | some m =>
      obtain ⟨hmem, hscb, hscoreb, hmin, htie⟩ := hinv.2 m hmd
      have hm0 : m = 0 := by
        rw [← hscoreb, hscore]
      subst hm0
      rcases rasterLt_total ((foldSearch tplBlack searchBlack 1 1 3
          (rasterList 2 2)).bestX, (foldSearch tplBlack searchBlack 1 1 3
          (rasterList 2 2)).bestY) (0, 0) with hcase | hcase | hcase
      · exfalso
        unfold rasterLt at hcase
        omega
      · exact hcase
      · exact absurd hcase
          (htie (0, 0) (mem_rasterList.mpr ⟨by norm_num, by norm_num⟩) (by decide)
            (hscore 0 0))
  exact ⟨by decide, by decide, hscore 1 1, congrArg Prod.fst hbest,
    congrArg Prod.snd hbest, by decide⟩

/-- Claim C4 as amended: if the search region holds a byte-identical
copy of the scaled template at feasible offset (ddx, ddy) and the
template has at least one sampled pixel above the alpha threshold, then
(ddx, ddy) scores 0 and the search returns some zero-score offset with
minimum score 0; it returns (ddx, ddy) itself provided no raster-earlier
offset also attains score 0 (as a template whose visible sampled pixels
are all RGB-black would allow). -/
theorem exact_match_alignment (tpl search : List ℕ)
    (tplW tplH searchW searchH ddx ddy : ℕ)
    (hx : tplW ≤ searchW) (hy : tplH ≤ searchH)
    (hdx : ddx ≤ searchW - tplW) (hdy : ddy ≤ searchH - tplH)
    (hcopy : ∀ px, px < tplW → ∀ py, py < tplH → ∀ k, k < 4 →
      search.getD (((py + ddy) * searchW + (px + ddx)) * 4 + k) 0 =
        tpl.getD ((py * tplW + px) * 4 + k) 0)
    (hvis : ∃ p ∈ samplePts tplW tplH, 40 < alphaAt tpl tplW p)
    (hfirst : ∀ dx, dx ≤ searchW - tplW → ∀ dy, dy ≤ searchH - tplH →
      rasterLt (dx, dy) (ddx, ddy) → scored tpl search tplW tplH searchW (dx, dy) →
      scoreAt tpl search tplW tplH searchW (dx, dy) ≠ 0) :
    (runSearch tpl search tplW tplH searchW (searchW - tplW) (searchH - tplH)).bestX = ddx ∧
    (runSearch tpl search tplW tplH searchW (searchW - tplW) (searchH - tplH)).bestY = ddy ∧
    (runSearch tpl search tplW tplH searchW (searchW - tplW) (searchH - tplH)).minDiff =
      some 0 ∧
    scoreAt tpl search tplW tplH searchW (ddx, ddy) = 0 := by
  have hqual : qualList tpl tplW tplH ≠ [] := by
    obtain ⟨p, hp, halpha⟩ := hvis
    exact List.ne_nil_of_mem (List.mem_filter.mpr ⟨hp, decide_eq_true halpha⟩)
  have hdiff0 : (diffWeightAt tpl search tplW tplH searchW ddx ddy).1 = 0 := by
    rw [diffWeightAt_eq]
    apply List.sum_eq_zero
    intro x hxm
    obtain ⟨p, hp, rfl⟩ := List.mem_map.mp hxm
    obtain ⟨h1, -, h3, -, -⟩ := mem_qualList.mp hp
    have e0 := hcopy p.1 h1 p.2 h3 0 (by norm_num)
    have e1 := hcopy p.1 h1 p.2 h3 1 (by norm_num)
    have e2 := hcopy p.1 h1 p.2 h3 2 (by norm_num)
    rw [Nat.add_zero, Nat.add_zero] at e0
    simp only [pixDiff, e0, e1, e2, sub_self, Int.natAbs_zero, Nat.add_zero]
  have hscore0 : scoreAt tpl search tplW tplH searchW (ddx, ddy) = 0 := by
    unfold scoreAt
    rw [hdiff0]
    simp
  rw [runSearch_eq_raster]
  have hinv := search_fold_inv tpl search tplW tplH searchW
    (rasterList (searchW - tplW) (searchH - tplH))
    (rasterList_pairwise (searchW - tplW) (searchH - tplH))
  have hddmem : ((ddx, ddy) : ℕ × ℕ) ∈ rasterList (searchW - tplW) (searchH - tplH) :=
    mem_rasterList.mpr ⟨hdx, hdy⟩
  have hddscored : scored tpl search tplW tplH searchW (ddx, ddy) :=
    (scored_iff tpl search tplW tplH searchW (ddx, ddy)).mpr hqual
  cases hmd : (foldSearch tpl search tplW tplH searchW
      (rasterList (searchW - tplW) (searchH - tplH))).minDiff with
  | none =>
    exact absurd hddscored ((hinv.1 hmd).2 (ddx, ddy) hddmem)
  | some m =>
    obtain ⟨hmem, hscb, hscoreb, hmin, htie⟩ := hinv.2 m hmd
    have hm0 : m = 0 := by
      have hle : m ≤ 0 := hscore0 ▸ hmin (ddx, ddy) hddmem hddscored
      have hge : 0 ≤ m := by
        rw [← hscoreb]
        unfold scoreAt
        positivity
      exact le_antisymm hle hge
    subst hm0
    have hbest : ((foldSearch tpl search tplW tplH searchW
        (rasterList (searchW - tplW) (searchH - tplH))).bestX,
        (foldSearch tpl search tplW tplH searchW
          (rasterList (searchW - tplW) (searchH - tplH))).bestY) = ((ddx, ddy) : ℕ × ℕ) := by
      rcases rasterLt_total ((foldSearch tpl search tplW tplH searchW
          (rasterList (searchW - tplW) (searchH - tplH))).bestX,
          (foldSearch tpl search tplW tplH searchW
            (rasterList (searchW - tplW) (searchH - tplH))).bestY) (ddx, ddy) with
        hcase | hcase | hcase
      · exfalso
        exact hfirst _ (mem_rasterList.mp hmem).1 _ (mem_rasterList.mp hmem).2
          hcase hscb hscoreb
      · exact hcase
      · exact absurd hcase (htie (ddx, ddy) hddmem hddscored hscore0)
    have hb1 := congrArg Prod.fst hbest
    have hb2 := congrArg Prod.snd hbest
    exact ⟨hb1, hb2, rfl, hscore0⟩

/-- Witness for C4 on the red-template fixture: the copy sits at (1,1),
no earlier offset scores 0, and the search indeed returns (1,1) with
minimum score 0. -/
theorem exact_match_alignment_witness :
    ((1 : ℕ) ≤ 3 ∧ (1 : ℕ) ≤ 2 ∧
      (∀ px, px < 1 → ∀ py, py < 1 → ∀ k, k < 4 →
        searchRed.getD (((py + 1) * 3 + (px + 1)) * 4 + k) 0 =
          tplRed.getD ((py * 1 + px) * 4 + k) 0) ∧
      (∃ p ∈ samplePts 1 1, 40 < alphaAt tplRed 1 p) ∧
      (∀ dx, dx ≤ 3 - 1 → ∀ dy, dy ≤ 3 - 1 →
        rasterLt (dx, dy) (1, 1) → scored tplRed searchRed 1 1 3 (dx, dy) →
        scoreAt tplRed searchRed 1 1 3 (dx, dy) ≠ 0)) ∧
    ((runSearch tplRed searchRed 1 1 3 (3 - 1) (3 - 1)).bestX = 1 ∧
      (runSearch tplRed searchRed 1 1 3 (3 - 1) (3 - 1)).bestY = 1 ∧
      (runSearch tplRed searchRed 1 1 3 (3 - 1) (3 - 1)).minDiff = some 0 ∧
      scoreAt tplRed searchRed 1 1 3 (1, 1) = 0) := by
  have hfirst : ∀ dx, dx ≤ 3 - 1 → ∀ dy, dy ≤ 3 - 1 →
      rasterLt (dx, dy) (1, 1) → scored tplRed searchRed 1 1 3 (dx, dy) →
      scoreAt tplRed searchRed 1 1 3 (dx, dy) ≠ 0 := by
    intro dx hdx dy hdy hlt hsc
    have hdx2 : dx ≤ 2 := hdx
    have hdy2 : dy ≤ 2 := hdy
    interval_cases dx <;> interval_cases dy <;>
      first
        | exact absurd hlt (by decide)
        | (unfold scoreAt
           norm_num [show diffWeightAt tplRed searchRed 1 1 3 0 0 = (100, 1) from by decide,
             show diffWeightAt tplRed searchRed 1 1 3 1 0 = (100, 1) from by decide,
             show diffWeightAt tplRed searchRed 1 1 3 2 0 = (100, 1) from by decide,
             show diffWeightAt tplRed searchRed 1 1 3 0 1 = (100, 1) from by decide])
  refine ⟨⟨by norm_num, by norm_num, by decide, by decide, hfirst⟩, ?_⟩
  exact exact_match_alignment tplRed searchRed 1 1 3 3 1 1 (by norm_num) (by norm_num)
    (by norm_num) (by norm_num) (by decide) (by decide) hfirst

/-- Counterexample to claim C1 as stated: a feasible call whose template
has no sampled pixel above the alpha threshold (all alphas are 0)
returns dx = -2, not 0, because the final anchor-origin conversion
subtracts ax * targetScale = 2 from the untouched best offset 0. -/
theorem transparent_template_offset_cex :
    (∀ px py : ℕ, px < (max 1 (round ((1 : ℚ) * 1))).toNat →
      py < (max 1 (round ((1 : ℚ) * 1))).toNat → px % 2 = 0 → py % 2 = 0 →
      [0, 0, 0, 0].getD ((py * (max 1 (round ((1 : ℚ) * 1))).toNat + px) * 4 + 3) 0 ≤ 40) ∧
    (autoAlignTemplate [0, 0, 0, 0] [0, 0, 0, 0] ⟨0, 0, 1, 1⟩ ⟨2, 0, 1, 1⟩ 1).dx = -2 ∧
    (autoAlignTemplate [0, 0, 0, 0] [0, 0, 0, 0] ⟨0, 0, 1, 1⟩ ⟨2, 0, 1, 1⟩ 1).dx ≠ 0 := by
  have hn : (max 1 (round ((1 : ℚ) * 1))).toNat = 1 := by norm_num
  have hresult : (autoAlignTemplate [0, 0, 0, 0] [0, 0, 0, 0] ⟨0, 0, 1, 1⟩ ⟨2, 0, 1, 1⟩ 1).dx
      = -2 := by
    simp only [autoAlignTemplate]
    rw [if_neg (by norm_num)]
    rw [hn, show ((⌊(1 : ℚ)⌋ : ℤ) - max 1 (round ((1 : ℚ) * 1))).toNat = 0 by norm_num]
    rw [runSearch_unscored _ _ _ _ _ _ _ (by decide)]
    norm_num
  refine ⟨?_, hresult, by rw [hresult]; norm_num⟩
  intro px py hpx hpy hp2 hp4
  rw [hn] at hpx hpy
  interval_cases px
  interval_cases py
  simp [hn]

/-- Claim C1 as amended: on a feasible call whose template has no
stride-2-sampled pixel above the alpha threshold, the search never
updates its initial state, so the result is deterministically
{dx: -ax * targetScale, dy: -ay * targetScale} with no infeasibility
signal — independent of the search-region content (which the formula
does not mention), but not {0,0} unless the scaled anchor origin is
itself zero. -/
theorem transparent_template_offset (tplData searchData : List ℕ)
    (t : TargetRectPx) (a : AnchorInPatchPx) (s : ℚ)
    (hfeas : ¬((⌊t.tw⌋ : ℤ) - max 1 (round (a.aw * s)) < 0 ∨
               (⌊t.th⌋ : ℤ) - max 1 (round (a.ah * s)) < 0))
    (htrans : ∀ px py : ℕ, px < (max 1 (round (a.aw * s))).toNat →
      py < (max 1 (round (a.ah * s))).toNat → px % 2 = 0 → py % 2 = 0 →
      tplData.getD ((py * (max 1 (round (a.aw * s))).toNat + px) * 4 + 3) 0 ≤ 40) :
    autoAlignTemplate tplData searchData t a s =
      ⟨-(a.ax * s), -(a.ay * s), false⟩ := by
  have hq : qualList tplData (max 1 (round (a.aw * s))).toNat
      (max 1 (round (a.ah * s))).toNat = [] := by
    unfold qualList
    rw [List.filter_eq_nil]
    intro p hp
    obtain ⟨h1, h2, h3, h4⟩ := mem_samplePts.mp hp
    simp only [alphaAt, decide_eq_true_eq, not_lt]
    exact htrans p.1 p.2 h1 h3 h2 h4
  unfold autoAlignTemplate
  rw [if_neg hfeas]
  rw [runSearch_unscored _ _ _ _ _ _ _ hq]
  simp [zero_sub]

/-- Witness for C1 at a concrete feasible transparent-template call
with a nonzero anchor origin: the result is {-2, 0} as the amended
claim states. -/
theorem transparent_template_offset_witness :
    (¬((⌊(1 : ℚ)⌋ : ℤ) - max 1 (round ((1 : ℚ) * 1)) < 0 ∨
       (⌊(1 : ℚ)⌋ : ℤ) - max 1 (round ((1 : ℚ) * 1)) < 0)) ∧
    (∀ px py : ℕ, px < (max 1 (round ((1 : ℚ) * 1))).toNat →
      py < (max 1 (round ((1 : ℚ) * 1))).toNat → px % 2 = 0 → py % 2 = 0 →
      [0, 0, 0, 0].getD ((py * (max 1 (round ((1 : ℚ) * 1))).toNat + px) * 4 + 3) 0 ≤ 40) ∧
    autoAlignTemplate [0, 0, 0, 0] [9, 9, 9, 9] ⟨0, 0, 1, 1⟩ ⟨2, 0, 1, 1⟩ 1 =
      ⟨-((2 : ℚ) * 1), -((0 : ℚ) * 1), false⟩ := by
  have hn : (max 1 (round ((1 : ℚ) * 1))).toNat = 1 := by norm_num
  have hfeas : ¬((⌊(1 : ℚ)⌋ : ℤ) - max 1 (round ((1 : ℚ) * 1)) < 0 ∨
      (⌊(1 : ℚ)⌋ : ℤ) - max 1 (round ((1 : ℚ) * 1)) < 0) := by norm_num
  have htrans : ∀ px py : ℕ, px < (max 1 (round ((1 : ℚ) * 1))).toNat →
      py < (max 1 (round ((1 : ℚ) * 1))).toNat → px % 2 = 0 → py % 2 = 0 →
      [0, 0, 0, 0].getD ((py * (max 1 (round ((1 : ℚ) * 1))).toNat + px) * 4 + 3) 0 ≤ 40 := by
    intro px py hpx hpy hp2 hp4
    rw [hn] at hpx hpy
    interval_cases px
    interval_cases py
    simp [hn]
  exact ⟨hfeas, htrans,
    transparent_template_offset [0, 0, 0, 0] [9, 9, 9, 9] ⟨0, 0, 1, 1⟩ ⟨2, 0, 1, 1⟩ 1
      hfeas htrans⟩

end FGOSprite
